import Mathlib

set_option maxRecDepth 100000
set_option maxHeartbeats 4000000

/-!
Verification of the easy-2fa core (src/index.ts) against its specification.

The code is shallowly embedded: byte strings are `List Nat` (each element a
byte value `< 256`), machine integers are `Nat`/`Int` with explicit `% 2^w`
where overflow matters, the JavaScript counter (a `BigInt64` written
big-endian) is an `Int` reduced modulo `2^64`, and the external collaborators
(secure RNG, wall clock, QR renderer) are explicit inputs.  HMAC-SHA1 is
embedded concretely so that codes evaluate on concrete inputs.
-/

namespace Easy2FA

/-! ## Bytes and 32-bit words -/

/-- Truncation to a 32-bit word. -/
def u32 (n : Nat) : Nat := n % 4294967296

/-- Left rotation of a 32-bit word by `s` bits (`0 < s < 32`, `w < 2^32`). -/
def rotl (s w : Nat) : Nat := (u32 (w <<< s)) ||| (w >>> (32 - s))

/-- Big-endian byte serialization of `v` into `n` bytes. -/
def beBytes (n : Nat) (v : Nat) : List Nat :=
  (List.range n).map (fun i => (v >>> (8 * (n - 1 - i))) % 256)

/-- Indexing with JavaScript semantics: an out-of-range read yields
`undefined`, which the subsequent bitwise operations coerce to `0`. -/
def bufGet (l : List Nat) (i : Nat) : Nat :=
  match l.get? i with
  | some b => b
  | none => 0

/-- Split a byte list into consecutive 64-byte blocks. -/
def chunk64 (l : List Nat) : List (List Nat) :=
  (List.range (l.length / 64)).map (fun i => (l.drop (64 * i)).take 64)

/-! ## SHA-1 (concrete embedding of the hash collaborator) -/

/-- Modelled from the spec: the `HMAC-SHA1(key, message) → 20 bytes`
collaborator is not in the repository (it comes from node's `crypto`); its
SHA-1 core is embedded here concretely, per FIPS 180, so that the claims can
be evaluated on concrete seeds and counters.  Merkle–Damgård padding. -/
def sha1Pad (m : List Nat) : List Nat :=
  m ++ [128] ++ List.replicate ((119 - m.length % 64) % 64) 0
    ++ beBytes 8 (8 * m.length)

/-- The sixteen 32-bit words of one 64-byte block, big-endian. -/
def toWords (block : List Nat) : List Nat :=
  (List.range 16).map (fun i =>
    (bufGet block (4 * i) <<< 24) ||| (bufGet block (4 * i + 1) <<< 16) |||
    (bufGet block (4 * i + 2) <<< 8) ||| bufGet block (4 * i + 3))

/-- The SHA-1 round function, by round index. -/
def sha1F (t b c d : Nat) : Nat :=
  if t < 20 then (b &&& c) ||| ((b ^^^ 4294967295) &&& d)
  else if t < 40 then b ^^^ c ^^^ d
  else if t < 60 then (b &&& c) ||| (b &&& d) ||| (c &&& d)
  else b ^^^ c ^^^ d

/-- The SHA-1 round constants, by round index. -/
def sha1K (t : Nat) : Nat :=
  if t < 20 then 1518500249
  else if t < 40 then 1859775393
  else if t < 60 then 2400959708
  else 3395469782

/-- The schedule is kept packed in a single natural number, 32 bits per
word, so that the kernel evaluates it with arbitrary-precision arithmetic:
word `i` occupies bits `32 * i ..< 32 * (i + 1)`. -/
def w32get (W : Nat) (i : Nat) : Nat := (W >>> (32 * i)) &&& 4294967295

/-- Write word `i` (whose slot is still zero) of a packed schedule. -/
def w32set (W : Nat) (i w : Nat) : Nat := W + (w <<< (32 * i))

/-- Pack a list of 32-bit words into one natural number. -/
def packWords : List Nat → Nat
  | [] => 0
  | w :: ws => w + (packWords ws <<< 32)

/-- Message-schedule extension on the packed schedule: starting at word
index `i`, append `fuel` further words
`W[i] = rotl1 (W[i-3] xor W[i-8] xor W[i-14] xor W[i-16])`. -/
def sha1ExtendP (W : Nat) : Nat → Nat → Nat
  | 0, _ => W
  | fuel + 1, i =>
    sha1ExtendP
      (w32set W i (rotl 1 ((w32get W (i - 3)) ^^^ (w32get W (i - 8)) ^^^
                           (w32get W (i - 14)) ^^^ (w32get W (i - 16)))))
      fuel (i + 1)

/-- The 80 SHA-1 rounds transforming the working state `(a, b, c, d, e)`;
`fuel` rounds remain and `t` is the current round index. -/
def sha1Rounds (W : Nat) : Nat → Nat → Nat × Nat × Nat × Nat × Nat →
    Nat × Nat × Nat × Nat × Nat
  | 0, _, st => st
  | fuel + 1, t, st =>
    sha1Rounds W fuel (t + 1)
      (u32 (rotl 5 st.1 + sha1F t st.2.1 st.2.2.1 st.2.2.2.1 + st.2.2.2.2 +
            sha1K t + w32get W t),
       st.1, rotl 30 st.2.1, st.2.2.1, st.2.2.2.1)

/-- One SHA-1 compression: 80 rounds over the packed extended schedule `W`,
added to the incoming chaining value `h` (five words). -/
def sha1Compress (W : Nat) (h : List Nat) : List Nat :=
  let s := sha1Rounds W 80 0 (bufGet h 0, bufGet h 1, bufGet h 2, bufGet h 3, bufGet h 4)
  [u32 (bufGet h 0 + s.1), u32 (bufGet h 1 + s.2.1), u32 (bufGet h 2 + s.2.2.1),
   u32 (bufGet h 3 + s.2.2.2.1), u32 (bufGet h 4 + s.2.2.2.2)]

/-- SHA-1 of a byte string: 20 bytes. -/
def sha1 (m : List Nat) : List Nat :=
  (((chunk64 (sha1Pad m)).foldl
      (fun h b => sha1Compress (sha1ExtendP (packWords (toWords b)) 64 16) h)
      [1732584193, 4023233417, 2562383102, 271733878, 3285377520]).map
    (beBytes 4)).flatten

/-- Modelled from the spec: `HMAC-SHA1(key: bytes, message: bytes) → 20
bytes`, the keyed-hash collaborator used by `generateCode` (node's
`crypto.createHmac('sha1', seed)`), per RFC 2104 with a 64-byte block. -/
def hmacSha1 (key msg : List Nat) : List Nat :=
  let key1 := if 64 < key.length then sha1 key else key
  let key0 := key1 ++ List.replicate (64 - key1.length) 0
  sha1 ((key0.map (fun b => b ^^^ 92)) ++
        sha1 ((key0.map (fun b => b ^^^ 54)) ++ msg))

/-! ## Decimal strings (`Number.prototype.toString`, `slice`, `padStart`,
`parseInt`), embedded over lists of characters -/

/-- The little-endian decimal digits of `n`, with an explicit fuel bound to
keep the recursion structural (any `fuel ≥ n` gives all digits). -/
def decDigitsAux : Nat → Nat → List Nat
  | _, 0 => []
  | 0, _ + 1 => []
  | fuel + 1, n + 1 => (n + 1) % 10 :: decDigitsAux fuel ((n + 1) / 10)

/-- `code.toString()`: the big-endian decimal digit characters of `n`
(the single character common to digit 0 when `n = 0`). -/
def decimalDigits (n : Nat) : List Char :=
  if n = 0 then [Char.ofNat 48]
  else (decDigitsAux n n).reverse.map (fun d => Char.ofNat (48 + d))

/-- `parseInt` on a string of decimal digit characters (leading zeros are
dropped from the numeric value). -/
def parseIntDigits (l : List Char) : Nat :=
  l.foldl (fun a c => 10 * a + (c.toNat - 48)) 0

/-- `s.slice(-len)` for `len ≥ 1`: the last `len` characters (the whole
string when it is shorter than `len`). -/
def jsSliceLast (l : List Char) (len : Nat) : List Char :=
  l.drop (l.length - len)

/-- `s.padStart(len, '0')`. -/
def jsPadStart (l : List Char) (len : Nat) : List Char :=
  List.replicate (len - l.length) (Char.ofNat 48) ++ l

/-! ## `generateCode` -/

/-- `Buffer.alloc(8)` + `writeBigInt64BE(BigInt(counter))`: the counter as
an 8-byte big-endian two's-complement integer. -/
def counterBytes (c : Int) : List Nat :=
  beBytes 8 (c.emod 18446744073709551616).toNat

/-- `generateCode(seed, counter, options)` from src/index.ts: HMAC-SHA1 of
the 8-byte big-endian counter keyed by the seed, dynamic truncation, then
decimal text, `slice(-len)`, `padStart(len, '0')` and `parseInt`.  The code
length option defaults to 6. -/
def generateCode (seed : List Nat) (counter : Int) (lenOpt : Option Nat) : Nat :=
  let len := lenOpt.getD 6
  let tokenBuf := hmacSha1 seed (counterBytes counter)
  let offset := bufGet tokenBuf 19 &&& 15
  let code :=
    ((bufGet tokenBuf offset &&& 127) <<< 24) |||
    ((bufGet tokenBuf (offset + 1) &&& 255) <<< 16) |||
    ((bufGet tokenBuf (offset + 2) &&& 255) <<< 8) |||
    (bufGet tokenBuf (offset + 3) &&& 255)
  parseIntDigits (jsPadStart (jsSliceLast (decimalDigits code) len) len)

/-- The RFC 4226 31-bit dynamically truncated value, written from the
specification's own derivation: `offset = digest[19] & 0x0F`,
`truncated = ((digest[offset] & 0x7F) << 24) | (digest[offset+1] << 16) |
(digest[offset+2] << 8) | digest[offset+3]`. -/
def rfc4226Truncated (seed : List Nat) (counter : Int) : Nat :=
  let digest := hmacSha1 seed (counterBytes counter)
  let offset := bufGet digest 19 &&& 15
  ((bufGet digest offset &&& 127) <<< 24) |||
  (bufGet digest (offset + 1) <<< 16) |||
  (bufGet digest (offset + 2) <<< 8) |||
  bufGet digest (offset + 3)

/-! ## `verifyHOTP` and `verifyTOTP` -/

/-- The options record of `verifyHOTP`; the drifts are the non-negative
counts of extra counters checked before and after `counter`. -/
structure VerifyHOTPOptions where
  length : Option Nat := none
  allowedBeforeDrift : Option Nat := none
  allowedAfterDrift : Option Nat := none

/-- The `for` loop of `verifyHOTP`: starting at counter `i`, check `fuel`
consecutive counters in ascending order, returning `true` on the first
`generateCode` match and `false` when the range is exhausted. -/
def scanCounters (seed : List Nat) (code : Nat) (lenOpt : Option Nat) :
    Nat → Int → Bool
  | 0, _ => false
  | fuel + 1, i =>
    if generateCode seed i lenOpt = code then true
    else scanCounters seed code lenOpt fuel (i + 1)

/-- `verifyHOTP(seed, code, counter, options)` from src/index.ts: scan the
inclusive range `[counter - allowedBeforeDrift, counter + allowedAfterDrift]`
(both drifts default to 0), which holds `before + after + 1` counters. -/
def verifyHOTP (seed : List Nat) (code : Nat) (counter : Int)
    (options : VerifyHOTPOptions) : Bool :=
  let before := options.allowedBeforeDrift.getD 0
  let after := options.allowedAfterDrift.getD 0
  scanCounters seed code options.length (before + after + 1) (counter - before)

/-- The options record of `verifyTOTP`. -/
structure VerifyTOTPOptions where
  length : Option Nat := none
  step : Option Nat := none

/-- `verifyTOTP(seed, code, options)` from src/index.ts, the wall clock
modelled as the input `nowMs` (`Date.now()`, milliseconds): the counter is
`Math.floor(Date.now() / 1000 / step)` — one floor of the real quotient,
which for naturals is division by `1000 * step` — then it delegates to
`verifyHOTP` passing only the length option (so both drifts default to 0). -/
def verifyTOTP (seed : List Nat) (code : Nat) (nowMs : Nat)
    (options : VerifyTOTPOptions) : Bool :=
  let step := options.step.getD 30
  let counter := (nowMs / (1000 * step) : Nat)
  verifyHOTP seed code counter ⟨options.length, none, none⟩

/-! ## `generateSeed` -/

/-- One loop iteration's character: `buf.readUInt8(0) % 36`, appended as the
decimal digit itself when `< 10` (`seed += newChar` stringifies it, i.e.
character code `48 + newChar`) and as `String.fromCharCode(newChar + 87)`
(`'a'`–`'z'`) otherwise. -/
def seedChar (b : Nat) : Char :=
  let newChar := b % 36
  if newChar < 10 then Char.ofNat (48 + newChar) else Char.ofNat (newChar + 87)

/-- The `while (seed.length < len)` loop of `generateSeed`: each iteration
consumes one byte of the random stream and appends one character, so with
`rem` characters still to produce and the stream positioned at index `i`. -/
def genSeedFrom (stream : Nat → Nat) : Nat → Nat → List Char
  | _, 0 => []
  | i, rem + 1 => seedChar (stream i) :: genSeedFrom stream (i + 1) rem

/-- `generateSeed(options)` from src/index.ts, the secure random source
modelled as the input byte stream (`crypto.randomBytes(1)` per iteration);
the seed length option defaults to 48. -/
def generateSeed (stream : Nat → Nat) (lenOpt : Option Nat) : List Char :=
  genSeedFrom stream 0 (lenOpt.getD 48)

/-- The character lies in the 36-symbol alphabet `[0-9a-z]`. -/
def isBase36Char (c : Char) : Bool :=
  (48 ≤ c.toNat && c.toNat ≤ 57) || (97 ≤ c.toNat && c.toNat ≤ 122)

/-! ## `generateURL` and `generateQRCode` -/

/-- JavaScript truthiness of an optional string: absent and empty strings
are falsy. -/
def truthyStr : Option String → Bool
  | none => false
  | some s => !s.isEmpty

/-- The UTF-8 bytes of one character. -/
def utf8Bytes (c : Char) : List Nat :=
  let n := c.toNat
  if n < 128 then [n]
  else if n < 2048 then [192 + n / 64, 128 + n % 64]
  else if n < 65536 then [224 + n / 4096, 128 + n / 64 % 64, 128 + n % 64]
  else [240 + n / 262144, 128 + n / 4096 % 64, 128 + n / 64 % 64, 128 + n % 64]

/-- The UTF-8 bytes of a string (node's `Buffer.from(s)`). -/
def strBytes (s : String) : List Nat :=
  (s.toList.map utf8Bytes).flatten

/-- The RFC 4648 Base32 alphabet character with index `n < 32`:
`A`–`Z` then `2`–`7`. -/
def b32char (n : Nat) : Char :=
  if n < 26 then Char.ofNat (65 + n) else Char.ofNat (50 + (n - 26))

/-- One Base32 output group for a block `g` of 1 to 5 input bytes: the
bits of `g`, zero-padded on the right to a multiple of 5, emitted as
5-bit alphabet characters, then `'='`-padded to 8 characters. -/
def base32Group (g : List Nat) : List Char :=
  let nchars := (8 * g.length + 4) / 5
  let v := (g.foldl (fun a b => a * 256 + b) 0) <<< (5 * nchars - 8 * g.length)
  ((List.range nchars).map (fun i => b32char ((v >>> (5 * (nchars - 1 - i))) % 32)))
    ++ List.replicate (8 - nchars) (Char.ofNat 61)

/-- Modelled from the spec: the `Base32 encode(bytes) → string` collaborator
(the `hi-base32` dependency, not in the repository) — RFC 4648 Base32 over
5-byte blocks, with `'='` padding (the caller strips it). -/
def base32encode (bytes : List Nat) : String :=
  String.mk (((List.range ((bytes.length + 4) / 5)).map
    (fun i => base32Group ((bytes.drop (5 * i)).take 5))).flatten)

/-- `.replace(/=/g, '')`: remove every `'='` character. -/
def stripEquals (s : String) : String :=
  String.mk (s.toList.filter (fun c => c.toNat ≠ 61))

/-- A character `encodeURIComponent` leaves unescaped: ASCII letters,
digits, and `- _ . ! ~ * ' ( )`. -/
def uriUnescaped (c : Char) : Bool :=
  let n := c.toNat
  (65 ≤ n && n ≤ 90) || (97 ≤ n && n ≤ 122) || (48 ≤ n && n ≤ 57) ||
  n == 45 || n == 95 || n == 46 || n == 33 || n == 126 || n == 42 ||
  n == 39 || n == 40 || n == 41

/-- An uppercase hexadecimal digit character. -/
def hexDigit (n : Nat) : Char :=
  if n < 10 then Char.ofNat (48 + n) else Char.ofNat (55 + n)

/-- Modelled from the spec: percent-encoding (JavaScript's builtin
`encodeURIComponent`): unescaped characters pass through, every other
character becomes `%XX` for each of its UTF-8 bytes. -/
def encodeURIComponent (s : String) : String :=
  String.mk ((s.toList.map (fun c =>
    if uriUnescaped c then [c]
    else ((utf8Bytes c).map
      (fun b => [Char.ofNat 37, hexDigit (b / 16), hexDigit (b % 16)])).flatten)).flatten)

/-- The options record of `generateURL`. -/
structure GenerateURLOptions where
  issuer : Option String := none
  account : Option String := none

/-- `generateURL(seed, options)` from src/index.ts: Base32-encode the seed's
bytes and strip `'='`; start from `otpauth://totp/`; if the issuer option is
truthy append `?issuer=` and the percent-encoded issuer; if the account
option is truthy append the percent-encoded account; always append
`&secret=` and the percent-encoded stripped encoding. -/
def generateURL (seed : String) (options : GenerateURLOptions) : String :=
  let encodedSeed := stripEquals (base32encode (strBytes seed))
  let url := "otpauth://totp/"
  let url :=
    if truthyStr options.issuer then
      url ++ "?issuer=" ++ encodeURIComponent (options.issuer.getD "")
    else url
  let url :=
    if truthyStr options.account then
      url ++ encodeURIComponent (options.account.getD "")
    else url
  url ++ "&secret=" ++ encodeURIComponent encodedSeed

/-- The error thrown by `generateQRCode` when it is given neither input
(`'You must provide either a seed or a URL.'`). -/
inductive QRError where
  | invalidArgument
deriving DecidableEq

/-- The options record of `generateQRCode`. -/
structure GenerateQRCodeOptions where
  seed : Option String := none
  issuer : Option String := none
  account : Option String := none
  url : Option String := none

/-- `generateQRCode(options)` from src/index.ts, the QR collaborator
(`qr.toDataURL`) modelled as the input `render`: throw when both the seed
and the url options are falsy; render the url when it is truthy; otherwise
render the URL built from the seed, issuer and account options. -/
def generateQRCode (render : String → String)
    (options : GenerateQRCodeOptions) : Except QRError String :=
  if !truthyStr options.seed && !truthyStr options.url then
    Except.error QRError.invalidArgument
  else if truthyStr options.url then
    Except.ok (render (options.url.getD ""))
  else
    Except.ok (render (generateURL (options.seed.getD "")
      ⟨options.issuer, options.account⟩))

/-- The seed of the RFC 4226 test vectors, used as concrete input in the
witnesses below. -/
def rfcSecret : List Nat := strBytes "12345678901234567890"

instance : DecidableEq (Except QRError String) := fun x y =>
  match x, y with
  | Except.error a, Except.error b =>
    if h : a = b then isTrue (congrArg Except.error h)
    else isFalse (fun hc => h (Except.error.inj hc))
  | Except.ok a, Except.ok b =>
    if h : a = b then isTrue (congrArg Except.ok h)
    else isFalse (fun hc => h (Except.ok.inj hc))
  | Except.error _, Except.ok _ => isFalse (fun hc => Except.noConfusion hc)
  | Except.ok _, Except.error _ => isFalse (fun hc => Except.noConfusion hc)

/-! ## Shape of the digest: 20 bytes, each `< 256` -/

theorem length_beBytes (n v : Nat) : (beBytes n v).length = n := by
  simp [beBytes]

theorem beBytes_lt (n v : Nat) : ∀ b ∈ beBytes n v, b < 256 := by
  intro b hb
  simp only [beBytes, List.mem_map] at hb
  obtain ⟨i, _, rfl⟩ := hb
  exact Nat.mod_lt _ (by norm_num)

theorem sha1Compress_length (W : Nat) (h : List Nat) : (sha1Compress W h).length = 5 :=
  rfl

theorem flatten_map_beBytes_length (l : List Nat) :
    ((l.map (beBytes 4)).flatten).length = 4 * l.length := by
  induction l with
  | nil => rfl
  | cons x xs ih =>
    simp only [List.map_cons, List.flatten_cons, List.length_append, ih,
      length_beBytes, List.length_cons]
    ring

theorem sha1_foldl_length (bs : List (List Nat)) (h : List Nat) (hh : h.length = 5) :
    (bs.foldl (fun h b => sha1Compress (sha1ExtendP (packWords (toWords b)) 64 16) h) h).length = 5 := by
  induction bs generalizing h with
  | nil => exact hh
  | cons b bs ih => exact ih _ (sha1Compress_length _ _)

theorem sha1_length (m : List Nat) : (sha1 m).length = 20 := by
  unfold sha1
  have h5 := sha1_foldl_length (chunk64 (sha1Pad m))
    [1732584193, 4023233417, 2562383102, 271733878, 3285377520] (by rfl)
  rw [flatten_map_beBytes_length, h5]

theorem sha1_lt (m : List Nat) : ∀ b ∈ sha1 m, b < 256 := by
  intro b hb
  unfold sha1 at hb
  simp only [List.mem_flatten, List.mem_map] at hb
  obtain ⟨l, ⟨w, _, rfl⟩, hbl⟩ := hb
  exact beBytes_lt _ _ b hbl

theorem hmacSha1_length (k m : List Nat) : (hmacSha1 k m).length = 20 := by
  simp only [hmacSha1]
  exact sha1_length _

theorem hmacSha1_lt (k m : List Nat) : ∀ b ∈ hmacSha1 k m, b < 256 := by
  simp only [hmacSha1]
  exact sha1_lt _

theorem bufGet_lt {l : List Nat} (h : ∀ b ∈ l, b < 256) (i : Nat) : bufGet l i < 256 := by
  unfold bufGet
  cases hg : l.get? i with
  | none => norm_num
  | some b => exact h b (List.get?_mem hg)

theorem get?_isSome_of_lt {α : Type} {l : List α} {i : Nat} (h : i < l.length) :
    (l.get? i).isSome = true := by
  rw [List.get?_eq_get h]
  rfl

/-- C9: in `generateCode`, every index used to read the HMAC digest is in
bounds: the read at 19 is in bounds, `offset = digest[19] & 0x0F` lies in
`[0, 15]`, and the four reads at `offset .. offset+3` (maximum index 18) all
lie within the 20-byte digest, so the embedded `Option`-returning indexing
never hits the out-of-range (`none`) branch for any seed and counter. -/
theorem generateCode_digest_indices_in_bounds (seed : List Nat) (c : Int) :
    ((hmacSha1 seed (counterBytes c)).get? 19).isSome = true ∧
    (bufGet (hmacSha1 seed (counterBytes c)) 19 &&& 15) ≤ 15 ∧
    ((hmacSha1 seed (counterBytes c)).get?
      (bufGet (hmacSha1 seed (counterBytes c)) 19 &&& 15)).isSome = true ∧
    ((hmacSha1 seed (counterBytes c)).get?
      ((bufGet (hmacSha1 seed (counterBytes c)) 19 &&& 15) + 1)).isSome = true ∧
    ((hmacSha1 seed (counterBytes c)).get?
      ((bufGet (hmacSha1 seed (counterBytes c)) 19 &&& 15) + 2)).isSome = true ∧
    ((hmacSha1 seed (counterBytes c)).get?
      ((bufGet (hmacSha1 seed (counterBytes c)) 19 &&& 15) + 3)).isSome = true := by
  have hlen : (hmacSha1 seed (counterBytes c)).length = 20 :=
    hmacSha1_length seed (counterBytes c)
  have hoff : (bufGet (hmacSha1 seed (counterBytes c)) 19 &&& 15) ≤ 15 :=
    Nat.and_le_right
  refine ⟨get?_isSome_of_lt (by rw [hlen]; omega), hoff,
    get?_isSome_of_lt (by rw [hlen]; omega),
    get?_isSome_of_lt (by rw [hlen]; omega),
    get?_isSome_of_lt (by rw [hlen]; omega),
    get?_isSome_of_lt (by rw [hlen]; omega)⟩

/-! ## Decimal text versus modular arithmetic -/

/-- The numeric value of a big-endian list of decimal digits. -/
def parseNat (l : List Nat) : Nat :=
  l.foldl (fun a d => 10 * a + d) 0

theorem parseNat_from (l : List Nat) :
    ∀ a, l.foldl (fun a d => 10 * a + d) a = a * 10 ^ l.length + parseNat l := by
  unfold parseNat
  induction l with
  | nil => intro a; simp
  | cons d l ih =>
    intro a
    simp only [List.foldl_cons, List.length_cons]
    rw [ih (10 * a + d)]
    simp only [Nat.mul_zero, Nat.zero_add]
    rw [ih d]
    ring

theorem parseNat_lt (l : List Nat) (h : ∀ d ∈ l, d < 10) :
    parseNat l < 10 ^ l.length := by
  induction l with
  | nil => simp [parseNat]
  | cons d l ih =>
    have hd : d < 10 := h d (List.mem_cons_self d l)
    have hl : parseNat l < 10 ^ l.length :=
      ih (fun x hx => h x (List.mem_cons_of_mem _ hx))
    have hstep : parseNat (d :: l) = d * 10 ^ l.length + parseNat l := by
      unfold parseNat
      simp only [List.foldl_cons]
      rw [show 10 * 0 + d = d by ring, parseNat_from l d]
      rfl
    rw [hstep, List.length_cons, pow_succ, mul_comm (10 ^ l.length) 10]
    calc d * 10 ^ l.length + parseNat l
        < d * 10 ^ l.length + 10 ^ l.length := by omega
      _ = (d + 1) * 10 ^ l.length := by ring
      _ ≤ 10 * 10 ^ l.length := Nat.mul_le_mul_right _ (by omega)

theorem parseNat_drop (l : List Nat) (h : ∀ d ∈ l, d < 10) (k : Nat) :
    parseNat (l.drop k) = parseNat l % 10 ^ (l.length - k) := by
  have hsplit : parseNat l = parseNat (l.take k) * 10 ^ (l.length - k) + parseNat (l.drop k) := by
    conv_lhs => rw [← List.take_append_drop k l]
    unfold parseNat
    rw [List.foldl_append, parseNat_from (l.drop k)]
    simp [parseNat, List.length_drop]
  have hlt : parseNat (l.drop k) < 10 ^ (l.length - k) := by
    have := parseNat_lt (l.drop k) (fun d hd => h d (List.mem_of_mem_drop hd))
    rwa [List.length_drop] at this
  rw [hsplit, mul_comm, Nat.mul_add_mod, Nat.mod_eq_of_lt hlt]

theorem decDigitsAux_lt (f : Nat) : ∀ n, ∀ d ∈ decDigitsAux f n, d < 10 := by
  induction f with
  | zero => intro n; cases n <;> simp [decDigitsAux]
  | succ f ih =>
    intro n
    cases n with
    | zero => simp [decDigitsAux]
    | succ n =>
      intro d hd
      simp only [decDigitsAux, List.mem_cons] at hd
      rcases hd with rfl | hd
      · exact Nat.mod_lt _ (by norm_num)
      · exact ih _ d hd

theorem decDigitsAux_foldr (f : Nat) :
    ∀ n, n ≤ f → (decDigitsAux f n).foldr (fun d a => 10 * a + d) 0 = n := by
  induction f with
  | zero =>
    intro n hn
    interval_cases n
    simp [decDigitsAux]
  | succ f ih =>
    intro n hn
    cases n with
    | zero => simp [decDigitsAux]
    | succ n =>
      have hdiv : (n + 1) / 10 < n + 1 := Nat.div_lt_self (Nat.succ_pos n) (by norm_num)
      simp only [decDigitsAux, List.foldr_cons]
      rw [ih ((n + 1) / 10) (by omega)]
      exact Nat.div_add_mod (n + 1) 10

theorem parseNat_reverse_decDigitsAux (n : Nat) :
    parseNat ((decDigitsAux n n).reverse) = n := by
  unfold parseNat
  rw [List.foldl_reverse]
  exact decDigitsAux_foldr n n (le_refl n)

theorem char48_toNat : ∀ d, d < 10 → (Char.ofNat (48 + d)).toNat = 48 + d := by decide

theorem parseIntDigits_map (l : List Nat) (h : ∀ d ∈ l, d < 10) :
    parseIntDigits (l.map (fun d => Char.ofNat (48 + d))) = parseNat l := by
  unfold parseIntDigits parseNat
  rw [List.foldl_map]
  have : ∀ (l : List Nat), (∀ d ∈ l, d < 10) → ∀ a,
      l.foldl (fun a d => 10 * a + ((Char.ofNat (48 + d)).toNat - 48)) a =
      l.foldl (fun a d => 10 * a + d) a := by
    intro l
    induction l with
    | nil => intro _ a; rfl
    | cons d l ih =>
      intro hl a
      simp only [List.foldl_cons]
      rw [char48_toNat d (hl d (List.mem_cons_self d l)),
        show 48 + d - 48 = d by omega]
      exact ih (fun x hx => hl x (List.mem_cons_of_mem _ hx)) _
  exact this l h 0

theorem parseIntDigits_padStart (l : List Char) (k : Nat) :
    parseIntDigits (List.replicate k (Char.ofNat 48) ++ l) = parseIntDigits l := by
  unfold parseIntDigits
  rw [List.foldl_append]
  have h0 : ∀ k, (List.replicate k (Char.ofNat 48)).foldl
      (fun a c => 10 * a + (c.toNat - 48)) 0 = 0 := by
    intro k
    induction k with
    | zero => rfl
    | succ k ih =>
      rw [List.replicate_succ, List.foldl_cons,
        show (Char.ofNat 48).toNat - 48 = 0 by decide]
      simpa using ih
  rw [h0]

/-- Step 5 of the RFC 4226 derivation as the source writes it (decimal text,
`slice(-L)`, `padStart`, `parseInt`) equals reduction modulo `10 ^ L`,
for `L ≥ 1`. -/
theorem textual_suffix_eq_mod (T L : Nat) (hL : 1 ≤ L) :
    parseIntDigits (jsPadStart (jsSliceLast (decimalDigits T) L) L) = T % 10 ^ L := by
  unfold jsPadStart
  rw [parseIntDigits_padStart]
  by_cases hT : T = 0
  · subst hT
    have h1 : (1 : Nat) - L = 0 := by omega
    simp [decimalDigits, jsSliceLast, h1, parseIntDigits,
      show (Char.ofNat 48).toNat - 48 = 0 by decide]
  · have hdig : ∀ d ∈ (decDigitsAux T T).reverse, d < 10 := by
      intro d hd
      exact decDigitsAux_lt T T d (List.mem_reverse.mp hd)
    have hlen : (decimalDigits T).length = (decDigitsAux T T).reverse.length := by
      simp [decimalDigits, hT]
    have hslice : jsSliceLast (decimalDigits T) L =
        (((decDigitsAux T T).reverse.drop ((decDigitsAux T T).reverse.length - L)).map
          (fun d => Char.ofNat (48 + d))) := by
      unfold jsSliceLast
      rw [hlen,
        show decimalDigits T = (decDigitsAux T T).reverse.map (fun d => Char.ofNat (48 + d)) from
          by simp [decimalDigits, hT],
        List.map_drop]
    rw [hslice, parseIntDigits_map _ (fun d hd => hdig d (List.mem_of_mem_drop hd)),
      parseNat_drop _ hdig, parseNat_reverse_decDigitsAux]
    set len := (decDigitsAux T T).reverse.length with hlendef
    have hTlt : T < 10 ^ len := by
      have := parseNat_lt ((decDigitsAux T T).reverse) hdig
      rwa [parseNat_reverse_decDigitsAux] at this
    rcases le_or_lt L len with hcase | hcase
    · have : len - (len - L) = L := by omega
      rw [this]
    · have hlenL : len - (len - L) = len := by omega
      rw [hlenL, Nat.mod_eq_of_lt hTlt,
        Nat.mod_eq_of_lt (lt_of_lt_of_le hTlt (Nat.pow_le_pow_right (by norm_num) (by omega)))]

/-- The truncated word computed inline by `generateCode` (with its redundant
byte masks) is the RFC 4226 truncated value. -/
theorem generateCode_eq_text_of_truncated (seed : List Nat) (c : Int) (lenOpt : Option Nat) :
    generateCode seed c lenOpt =
      parseIntDigits (jsPadStart (jsSliceLast (decimalDigits (rfc4226Truncated seed c))
        (lenOpt.getD 6)) (lenOpt.getD 6)) := by
  have h255 : ∀ i, bufGet (hmacSha1 seed (counterBytes c)) i &&& 255 =
      bufGet (hmacSha1 seed (counterBytes c)) i := by
    intro i
    have hb : bufGet (hmacSha1 seed (counterBytes c)) i < 256 :=
      bufGet_lt (hmacSha1_lt seed (counterBytes c)) i
    have := Nat.and_pow_two_sub_one_eq_mod (bufGet (hmacSha1 seed (counterBytes c)) i) 8
    norm_num at this
    rw [this, Nat.mod_eq_of_lt hb]
  simp only [generateCode, rfc4226Truncated, h255]

/-- C1: for every seed, counter, and length `L ≥ 1`, `generateCode` equals
the RFC 4226 derivation: the numeric value of the last `L` characters of the
truncated value's base-10 text, which is the truncated value mod `10 ^ L`
(leading zeros dropped from the returned number). -/
theorem generateCode_eq_rfc4226_mod (seed : List Nat) (c : Int) (L : Nat) (hL : 1 ≤ L) :
    generateCode seed c (some L) = rfc4226Truncated seed c % 10 ^ L := by
  rw [generateCode_eq_text_of_truncated]
  exact textual_suffix_eq_mod _ _ hL

/-! ## The drift-window scan -/

theorem scanCounters_true_iff (seed : List Nat) (code : Nat) (lenOpt : Option Nat) :
    ∀ (fuel : Nat) (start : Int),
      scanCounters seed code lenOpt fuel start = true ↔
        ∃ j : Nat, j < fuel ∧ generateCode seed (start + j) lenOpt = code := by
  intro fuel
  induction fuel with
  | zero =>
    intro start
    simp [scanCounters]
  | succ fuel ih =>
    intro start
    simp only [scanCounters]
    by_cases h : generateCode seed start lenOpt = code
    · simp only [if_pos h]
      constructor
      · intro _
        exact ⟨0, Nat.succ_pos fuel, by simpa using h⟩
      · intro _
        trivial
    · simp only [if_neg h]
      rw [ih (start + 1)]
      constructor
      · rintro ⟨j, hj, hgen⟩
        refine ⟨j + 1, by omega, ?_⟩
        rw [show start + ((j : Nat) + 1 : Nat) = start + 1 + j by push_cast; ring]
        exact hgen
      · rintro ⟨j, hj, hgen⟩
        cases j with
        | zero =>
          exact absurd (by simpa using hgen) h
        | succ j =>
          refine ⟨j, by omega, ?_⟩
          rw [show start + 1 + (j : Int) = start + ((j : Nat) + 1 : Nat) by push_cast; ring]
          exact hgen

/-- C4: `verifyHOTP` returns `true` exactly when some counter `i` in the
inclusive range `[counter - allowedBeforeDrift, counter + allowedAfterDrift]`
(scanned in ascending order, with `true` on the first match) satisfies
`generateCode seed i length = code`, and `false` when the range — never
empty for the non-negative drifts — is exhausted. -/
theorem verifyHOTP_true_iff (seed : List Nat) (code : Nat) (counter : Int)
    (options : VerifyHOTPOptions) :
    verifyHOTP seed code counter options = true ↔
      ∃ i : Int, counter - (options.allowedBeforeDrift.getD 0 : Nat) ≤ i ∧
        i ≤ counter + (options.allowedAfterDrift.getD 0 : Nat) ∧
        generateCode seed i options.length = code := by
  unfold verifyHOTP
  rw [scanCounters_true_iff]
  constructor
  · rintro ⟨j, hj, hgen⟩
    refine ⟨counter - (options.allowedBeforeDrift.getD 0 : Nat) + j, by omega, by omega, hgen⟩
  · rintro ⟨i, hlo, hhi, hgen⟩
    refine ⟨(i - (counter - (options.allowedBeforeDrift.getD 0 : Nat))).toNat, by omega, ?_⟩
    rw [show counter - (options.allowedBeforeDrift.getD 0 : Nat) +
        ((i - (counter - (options.allowedBeforeDrift.getD 0 : Nat))).toNat : Int) = i by omega]
    exact hgen

/-- C2: a freshly generated code always verifies at its own counter with the
default zero drift window. -/
theorem verifyHOTP_of_generateCode (seed : List Nat) (c : Int) (L : Nat) (hc : 0 ≤ c) :
    verifyHOTP seed (generateCode seed c (some L)) c ⟨some L, none, none⟩ = true := by
  unfold verifyHOTP
  simp only [Option.getD_none, Nat.cast_zero, sub_zero, Nat.zero_add]
  simp [scanCounters]

/-- C3 (amended): for every seed, counter `c` and length `L`, a code
generated at `c + 2` verifies at `c` with drift window `(0, 2)`; and
provided the code generated at `c + 3` collides with none of the codes of
the scanned counters `c`, `c + 1`, `c + 2`, it does not verify at `c` with
that window. -/
theorem verifyHOTP_drift_window (seed : List Nat) (c : Int) (L : Nat) :
    verifyHOTP seed (generateCode seed (c + 2) (some L)) c ⟨some L, some 0, some 2⟩ = true ∧
    (generateCode seed (c + 3) (some L) ≠ generateCode seed c (some L) →
     generateCode seed (c + 3) (some L) ≠ generateCode seed (c + 1) (some L) →
     generateCode seed (c + 3) (some L) ≠ generateCode seed (c + 2) (some L) →
     verifyHOTP seed (generateCode seed (c + 3) (some L)) c
       ⟨some L, some 0, some 2⟩ = false) := by
  constructor
  · unfold verifyHOTP
    simp only [Option.getD_some, Nat.cast_zero, sub_zero, Nat.zero_add]
    rw [scanCounters_true_iff]
    refine ⟨2, by omega, ?_⟩
    rw [show c + ((2 : Nat) : Int) = c + 2 by push_cast; ring]
  · intro h0 h1 h2
    rw [Bool.eq_false_iff]
    unfold verifyHOTP
    simp only [Option.getD_some, Nat.cast_zero, sub_zero, Nat.zero_add]
    rw [Ne, scanCounters_true_iff]
    rintro ⟨j, hj, hgen⟩
    have hj3 : j < 3 := by omega
    interval_cases j
    · exact h0 (by rw [← hgen]; congr 1 <;> push_cast <;> ring)
    · exact h1 (by rw [← hgen]; congr 1 <;> push_cast <;> ring)
    · exact h2 (by rw [← hgen]; congr 1 <;> push_cast <;> ring)

/-- C5: `verifyTOTP`, with the wall clock modeled as the input `nowMs`,
returns exactly `verifyHOTP` at counter `floor(current_unix_seconds / step)`
(where `current_unix_seconds = nowMs / 1000`) with zero drift in both
directions. -/
theorem verifyTOTP_eq_verifyHOTP (seed : List Nat) (code : Nat) (nowMs : Nat)
    (s L : Nat) (hs : 1 ≤ s) :
    verifyTOTP seed code nowMs ⟨some L, some s⟩ =
      verifyHOTP seed code ((nowMs / 1000 / s : Nat) : Int) ⟨some L, none, none⟩ := by
  simp only [verifyTOTP, Option.getD_some]
  rw [Nat.div_div_eq_div_mul]

/-! ## The seed generator -/

theorem genSeedFrom_length (stream : Nat → Nat) :
    ∀ rem i, (genSeedFrom stream i rem).length = rem := by
  intro rem
  induction rem with
  | zero => intro i; rfl
  | succ rem ih =>
    intro i
    simp only [genSeedFrom, List.length_cons, ih]

theorem genSeedFrom_get? (stream : Nat → Nat) :
    ∀ rem i j, j < rem →
      (genSeedFrom stream i rem).get? j = some (seedChar (stream (i + j))) := by
  intro rem
  induction rem with
  | zero =>
    intro i j hj
    omega
  | succ rem ih =>
    intro i j hj
    cases j with
    | zero => simp [genSeedFrom]
    | succ j =>
      have := ih (i + 1) j (by omega)
      simpa [genSeedFrom, Nat.add_assoc, Nat.add_comm 1 j] using this

theorem seedChar_base36 (b : Nat) : isBase36Char (seedChar b) = true := by
  have h36 : b % 36 < 36 := Nat.mod_lt _ (by norm_num)
  have key : ∀ m, m < 36 →
      isBase36Char (if m < 10 then Char.ofNat (48 + m) else Char.ofNat (m + 87)) = true := by
    decide
  simpa only [seedChar] using key (b % 36) h36

theorem genSeedFrom_mem (stream : Nat → Nat) :
    ∀ rem i, ∀ c ∈ genSeedFrom stream i rem, isBase36Char c = true := by
  intro rem
  induction rem with
  | zero =>
    intro i c hc
    simp [genSeedFrom] at hc
  | succ rem ih =>
    intro i c hc
    simp only [genSeedFrom, List.mem_cons] at hc
    rcases hc with rfl | hc
    · exact seedChar_base36 _
    · exact ih (i + 1) c hc

/-- C6: with the secure random source modeled as an input byte stream,
`generateSeed` returns exactly `L` characters; the `i`-th character is
`seedChar` of the `i`-th random byte — `b % 36`, rendered as the decimal
digit for values below 10 and as the letter `a`–`z` (character code
`b % 36 + 87`) otherwise — and every output character lies in the 36-symbol
alphabet `[0-9a-z]`. -/
theorem generateSeed_spec (stream : Nat → Nat) (L : Nat) (hL : 1 ≤ L) :
    (generateSeed stream (some L)).length = L ∧
    (∀ i, i < L → (generateSeed stream (some L)).get? i = some (seedChar (stream i))) ∧
    (∀ c ∈ generateSeed stream (some L), isBase36Char c = true) := by
  refine ⟨?_, ?_, ?_⟩
  · simpa [generateSeed] using genSeedFrom_length stream L 0
  · intro i hi
    simpa [generateSeed] using genSeedFrom_get? stream L 0 i hi
  · intro c hc
    exact genSeedFrom_mem stream L 0 c (by simpa [generateSeed] using hc)

/-! ## The provisioning URL -/

theorem truthyStr_isSome {o : Option String} (h : truthyStr o = true) : o.isSome = true := by
  cases o with
  | none => simp [truthyStr] at h
  | some s => rfl

/-- C8: `generateURL` produces `otpauth://totp/`, then an issuer part
(`?issuer=` and the percent-encoded issuer) only if the issuer is present,
then an account part (the percent-encoded account, with no separator of its
own) only if the account is present, and always ends with `&secret=`
followed by the percent-encoded Base32 encoding of the seed with the
padding characters stripped. -/
theorem generateURL_spec (seed : String) (options : GenerateURLOptions) :
    ∃ p1 p2 : String,
      generateURL seed options =
        "otpauth://totp/" ++ p1 ++ p2 ++ "&secret=" ++
          encodeURIComponent (stripEquals (base32encode (strBytes seed))) ∧
      (p1 = "" ∨ ∃ s, options.issuer = some s ∧
        p1 = "?issuer=" ++ encodeURIComponent s) ∧
      (p2 = "" ∨ ∃ s, options.account = some s ∧ p2 = encodeURIComponent s) := by
  by_cases hi : truthyStr options.issuer = true
  all_goals by_cases ha : truthyStr options.account = true
  all_goals simp only [Bool.not_eq_true] at hi ha
  · obtain ⟨si, hsi⟩ := Option.isSome_iff_exists.mp (truthyStr_isSome hi)
    obtain ⟨sa, hsa⟩ := Option.isSome_iff_exists.mp (truthyStr_isSome ha)
    refine ⟨"?issuer=" ++ encodeURIComponent si, encodeURIComponent sa,
      ?_, Or.inr ⟨si, hsi, rfl⟩, Or.inr ⟨sa, hsa, rfl⟩⟩
    have hi2 : truthyStr (some si) = true := by rw [← hsi]; exact hi
    have ha2 : truthyStr (some sa) = true := by rw [← hsa]; exact ha
    simp [generateURL, hsi, hsa, hi2, ha2, String.append_assoc]
    all_goals rfl
  · obtain ⟨si, hsi⟩ := Option.isSome_iff_exists.mp (truthyStr_isSome hi)
    refine ⟨"?issuer=" ++ encodeURIComponent si, "",
      ?_, Or.inr ⟨si, hsi, rfl⟩, Or.inl rfl⟩
    have hi2 : truthyStr (some si) = true := by rw [← hsi]; exact hi
    simp [generateURL, hsi, ha, hi2, String.append_assoc]
    all_goals rfl
  · obtain ⟨sa, hsa⟩ := Option.isSome_iff_exists.mp (truthyStr_isSome ha)
    refine ⟨"", encodeURIComponent sa, ?_, Or.inl rfl, Or.inr ⟨sa, hsa, rfl⟩⟩
    have ha2 : truthyStr (some sa) = true := by rw [← hsa]; exact ha
    simp [generateURL, hi, hsa, ha2, String.append_assoc]
    all_goals rfl
  · refine ⟨"", "", ?_, Or.inl rfl, Or.inl rfl⟩
    simp [generateURL, hi, ha, String.append_assoc]
    all_goals rfl

/-! ## The QR code generator -/

/-- C7 (amended): `generateQRCode` raises `InvalidArgument` exactly when
neither a truthy (present and non-empty) seed nor a truthy url is supplied;
a truthy url is rendered directly; otherwise the URL built from the seed,
issuer and account is rendered; and HOTP verification mismatch is a normal
`false` result, never an error (the verifier is a total boolean function). -/
theorem generateQRCode_spec (render : String → String) (options : GenerateQRCodeOptions) :
    (generateQRCode render options = Except.error QRError.invalidArgument ↔
      truthyStr options.seed = false ∧ truthyStr options.url = false) ∧
    (truthyStr options.url = true →
      ∃ u, options.url = some u ∧ generateQRCode render options = Except.ok (render u)) ∧
    (truthyStr options.url = false → truthyStr options.seed = true →
      ∃ s, options.seed = some s ∧ generateQRCode render options =
        Except.ok (render (generateURL s ⟨options.issuer, options.account⟩))) ∧
    (∀ (seed : List Nat) (code : Nat) (counter : Int) (opts : VerifyHOTPOptions),
      verifyHOTP seed code counter opts = false ∨ verifyHOTP seed code counter opts = true) := by
  refine ⟨?_, ?_, ?_, ?_⟩
  · cases hs : truthyStr options.seed <;> cases hu : truthyStr options.url <;>
      simp [generateQRCode, hs, hu]
  · intro hu
    obtain ⟨u, hu2⟩ := Option.isSome_iff_exists.mp (truthyStr_isSome hu)
    have hu3 : truthyStr (some u) = true := by rw [← hu2]; exact hu
    refine ⟨u, hu2, ?_⟩
    simp [generateQRCode, hu2, hu3]
  · intro hu hs
    obtain ⟨s0, hs2⟩ := Option.isSome_iff_exists.mp (truthyStr_isSome hs)
    have hs3 : truthyStr (some s0) = true := by rw [← hs2]; exact hs
    refine ⟨s0, hs2, ?_⟩
    simp [generateQRCode, hu, hs2, hs3]
  · intro seed code counter opts
    cases h : verifyHOTP seed code counter opts
    · exact Or.inl rfl
    · exact Or.inr rfl

/-- C10 (amended): when `generateQRCode` is given both a seed and a
non-empty url, it does not fail: the url takes precedence and is rendered
directly, and the seed, issuer and account options have no effect on the
result. -/
theorem generateQRCode_url_precedence (render : String → String)
    (options : GenerateQRCodeOptions) (s u : String)
    (hs : options.seed = some s) (hu : options.url = some u)
    (hne : u.isEmpty = false) :
    generateQRCode render options = Except.ok (render u) := by
  have hu3 : truthyStr (some u) = true := by simp [truthyStr, hne]
  simp [generateQRCode, hu, hu3]

/-! ## Witnesses, counterexamples, and the RFC 4226 test vector -/

/-- RFC 4226 Appendix D: the code for counter 0 under the standard test
secret is 755224 — a sanity check that the embedded HMAC-SHA1 pipeline
matches the published algorithm. -/
theorem generateCode_rfc4226_test_vector : generateCode rfcSecret 0 (some 6) = 755224 := by
  decide

/-- Witness for C1 at the RFC 4226 test secret, counter 0, length 6. -/
theorem generateCode_eq_rfc4226_mod_witness :
    1 ≤ 6 ∧ generateCode rfcSecret 0 (some 6) = rfc4226Truncated rfcSecret 0 % 10 ^ 6 :=
  ⟨by norm_num, generateCode_eq_rfc4226_mod rfcSecret 0 6 (by norm_num)⟩

/-- Witness for C2 at the RFC 4226 test secret, counter 0, length 6. -/
theorem verifyHOTP_of_generateCode_witness :
    (0 : Int) ≤ 0 ∧
      verifyHOTP rfcSecret (generateCode rfcSecret 0 (some 6)) 0 ⟨some 6, none, none⟩ = true :=
  ⟨le_refl 0, verifyHOTP_of_generateCode rfcSecret 0 6 (le_refl 0)⟩

/-- Witness for C3 (amended) at the RFC 4226 test secret, counter 0,
length 1: the four one-digit codes are 4, 2, 2, 9, so the code of counter 3
collides with none of the scanned ones. -/
theorem verifyHOTP_drift_window_witness :
    generateCode rfcSecret ((0 : Int) + 3) (some 1) ≠ generateCode rfcSecret 0 (some 1) ∧
    generateCode rfcSecret ((0 : Int) + 3) (some 1) ≠
      generateCode rfcSecret ((0 : Int) + 1) (some 1) ∧
    generateCode rfcSecret ((0 : Int) + 3) (some 1) ≠
      generateCode rfcSecret ((0 : Int) + 2) (some 1) ∧
    (verifyHOTP rfcSecret (generateCode rfcSecret ((0 : Int) + 2) (some 1)) 0
        ⟨some 1, some 0, some 2⟩ = true ∧
     verifyHOTP rfcSecret (generateCode rfcSecret ((0 : Int) + 3) (some 1)) 0
        ⟨some 1, some 0, some 2⟩ = false) := by
  have e0 : generateCode rfcSecret 0 (some 1) = 4 := by decide
  have e1 : generateCode rfcSecret ((0 : Int) + 1) (some 1) = 2 := by decide
  have e2 : generateCode rfcSecret ((0 : Int) + 2) (some 1) = 2 := by decide
  have e3 : generateCode rfcSecret ((0 : Int) + 3) (some 1) = 9 := by decide
  have h0 : generateCode rfcSecret ((0 : Int) + 3) (some 1) ≠
      generateCode rfcSecret 0 (some 1) := by rw [e3, e0]; norm_num
  have h1 : generateCode rfcSecret ((0 : Int) + 3) (some 1) ≠
      generateCode rfcSecret ((0 : Int) + 1) (some 1) := by rw [e3, e1]; norm_num
  have h2 : generateCode rfcSecret ((0 : Int) + 3) (some 1) ≠
      generateCode rfcSecret ((0 : Int) + 2) (some 1) := by rw [e3, e2]; norm_num
  exact ⟨h0, h1, h2, (verifyHOTP_drift_window rfcSecret 0 1).1,
    (verifyHOTP_drift_window rfcSecret 0 1).2 h0 h1 h2⟩

/-- Counterexample to C3 as stated: at the RFC 4226 test secret, counter 13
and length 1, the one-digit codes for counters 13..16 are 7, 3, 1, 1 — the
code of counter 16 = 13 + 3 collides with the code of counter 15, so
`verifyHOTP` with drift window `(0, 2)` accepts it instead of returning
`false`. -/
theorem verifyHOTP_drift_window_cex :
    verifyHOTP rfcSecret (generateCode rfcSecret ((13 : Int) + 3) (some 1)) 13
      ⟨some 1, some 0, some 2⟩ = true := by
  have h : generateCode rfcSecret ((13 : Int) + 3) (some 1) = 1 := by decide
  rw [h]
  decide

/-- Witness for C5 at the RFC 4226 test secret and one TOTP step. -/
theorem verifyTOTP_eq_verifyHOTP_witness :
    1 ≤ 30 ∧ verifyTOTP rfcSecret 755224 59000 ⟨some 6, some 30⟩ =
      verifyHOTP rfcSecret 755224 ((59000 / 1000 / 30 : Nat) : Int) ⟨some 6, none, none⟩ :=
  ⟨by norm_num, verifyTOTP_eq_verifyHOTP rfcSecret 755224 59000 30 6 (by norm_num)⟩

/-- Witness for C6 with the identity byte stream and length 2. -/
theorem generateSeed_spec_witness :
    1 ≤ 2 ∧ ((generateSeed (fun i => i) (some 2)).length = 2 ∧
      (∀ i, i < 2 → (generateSeed (fun i => i) (some 2)).get? i = some (seedChar i)) ∧
      (∀ c ∈ generateSeed (fun i => i) (some 2), isBase36Char c = true)) :=
  ⟨by norm_num, generateSeed_spec (fun i => i) 2 (by norm_num)⟩

/-- Witness for C7 (amended): with no seed and no url, `generateQRCode`
raises `InvalidArgument`. -/
theorem generateQRCode_spec_witness :
    generateQRCode (fun s => s) ⟨none, none, none, none⟩ =
      Except.error QRError.invalidArgument :=
  ((generateQRCode_spec (fun s => s) ⟨none, none, none, none⟩).1).mpr ⟨rfl, rfl⟩

/-- Counterexample to C7 as stated: a url IS supplied (`url = some ""`), yet
`generateQRCode` raises `InvalidArgument` (and does not render the url),
because the JavaScript truthiness test treats the empty string as absent. -/
theorem generateQRCode_supplied_url_cex :
    ((⟨none, none, none, some ""⟩ : GenerateQRCodeOptions).url.isSome = true) ∧
    generateQRCode (fun s => s) ⟨none, none, none, some ""⟩ =
      Except.error QRError.invalidArgument := by
  exact ⟨rfl, by decide⟩

/-- Witness for C10 (amended) with seed `"a"` and url `"x"`. -/
theorem generateQRCode_url_precedence_witness :
    ((⟨some "a", none, none, some "x"⟩ : GenerateQRCodeOptions).seed = some "a") ∧
    ((⟨some "a", none, none, some "x"⟩ : GenerateQRCodeOptions).url = some "x") ∧
    "x".isEmpty = false ∧
    generateQRCode (fun s => s) ⟨some "a", none, none, some "x"⟩ = Except.ok "x" :=
  ⟨rfl, rfl, by decide,
    generateQRCode_url_precedence (fun s => s) ⟨some "a", none, none, some "x"⟩
      "a" "x" rfl rfl (by decide)⟩

/-- Counterexample to C10 as stated: with an empty url, the seed is not
ignored — changing only the seed changes the result, because the empty url
is falsy and the URL is built from the seed instead. -/
theorem generateQRCode_seed_effect_cex :
    generateQRCode (fun s => s) ⟨some "a", none, none, some ""⟩ ≠
      generateQRCode (fun s => s) ⟨some "b", none, none, some ""⟩ := by
  decide

end Easy2FA
